import Mathlib

/-!
Shallow embedding of the `queries` Go library (parameter resolver,
argument preparation, query-store loading, and the block scanner).

The resolver (`NewQuery`) discovers psql-style named placeholders with the
regular expression `[^:]:['"]?([A-Za-z][A-Za-z0-9_]*)['"]?`, assigns
1-based ordinals in first-occurrence order (skipping the reserved names
`MI` and `SS`), and then, iterating over the mapping (a Go map, so in an
unspecified order), replaces every occurrence of `:["']?name["']?` by
`$ordinal`.  Strings are modelled as their character lists; the two regex
matchers are modelled as explicit character-level matchers with the exact
leftmost, non-overlapping, greedy-with-backtracking semantics of Go's
regexp package on these two concrete patterns.  The unspecified iteration
order of a Go map is modelled by passing the list of map entries
explicitly; a real execution corresponds to some permutation of the
mapping.
-/

namespace Queries

/-- `[A-Za-z]`, the first character of an identifier in `psqlVarRE`. -/
def isIdentStart (c : Char) : Bool := c.isAlpha

/-- `[A-Za-z0-9_]`, a continuation character of an identifier. -/
def isIdentChar (c : Char) : Bool := c.isAlpha || c.isDigit || c = '_'

/-- `['"]`, the optional cosmetic quote around a placeholder name. -/
def isQuote (c : Char) : Bool := c = '\'' || c = '"'

/-- `reservedNames = []string{"MI", "SS"}` from queries.go. -/
def reservedNames : List String := ["MI", "SS"]

/-- `isReservedName` from queries.go: linear scan over `reservedNames`. -/
def isReservedName (name : String) : Bool :=
  reservedNames.any (fun res => name = res)

/-- Drop one leading quote character if present: the trailing `['"]?` of
both regexes, which is greedy and (being at the end of the pattern) never
backtracks. -/
def consumeQuote : List Char → List Char
  | [] => []
  | c :: rest => if isQuote c then rest else c :: rest

/-- Decide whether the first list is a prefix of the second. -/
def startsWithList : List Char → List Char → Bool
  | [], _ => true
  | _ :: _, [] => false
  | a :: as, b :: bs => a = b && startsWithList as bs

/-- Matcher for the part of `psqlVarRE` after the leading `[^:]:`, at the
head of the input: optional quote, identifier, optional quote.  Returns
the captured identifier and the unconsumed suffix.  The leading `['"]?`
is greedy: if a quote is present it is consumed, and the backtracking
alternative (treating the quote itself as the identifier start) can never
succeed because a quote is not a letter. -/
def matchBody : List Char → Option (String × List Char)
  | [] => none
  | q :: rest =>
    if isQuote q then
      match rest with
      | [] => none
      | a :: rest2 =>
        if isIdentStart a then
          some (String.mk (a :: rest2.takeWhile isIdentChar),
                consumeQuote (rest2.dropWhile isIdentChar))
        else none
    else if isIdentStart q then
      some (String.mk (q :: rest.takeWhile isIdentChar),
            consumeQuote (rest.dropWhile isIdentChar))
    else none

/-- One attempted match of `psqlVarRE = [^:]:['"]?([A-Za-z][A-Za-z0-9_]*)['"]?`
at the head of the input: a non-colon character, a colon, then the body. -/
def matchVar : List Char → Option (String × List Char)
  | c0 :: c1 :: rest =>
    if c0 = ':' then none
    else if c1 = ':' then matchBody rest
    else none
  | _ => none

/-- `r.FindAllStringSubmatch(query, -1)` restricted to the first capture
group: scan left to right; at each position try `matchVar`; on success
record the captured name and resume after the match (non-overlapping),
otherwise advance one character.  Every step consumes at least one
character, so fuel `length + 1` never runs out. -/
def findAllAux : Nat → List Char → List String
  | 0, _ => []
  | _ + 1, [] => []
  | fuel + 1, c :: cs =>
    match matchVar (c :: cs) with
    | some (name, rem) => name :: findAllAux fuel rem
    | none => findAllAux fuel cs

/-- The list of captured parameter names of `query`, in match order. -/
def namesOf (query : String) : List String :=
  findAllAux (query.data.length + 1) query.data

/-- The loop body of the discovery loop in `NewQuery`: skip reserved
names, and insert an unseen name with ordinal `position`; since entries
are only ever appended, `position = acc.length + 1`. -/
def mappingStep (acc : List (String × Nat)) (n : String) : List (String × Nat) :=
  if isReservedName n then acc
  else if acc.any (fun p => p.1 = n) then acc
  else acc ++ [(n, acc.length + 1)]

/-- The name-to-ordinal mapping built by `NewQuery`, as its list of
entries in insertion (= first-occurrence) order. -/
def buildMapping (names : List String) : List (String × Nat) :=
  names.foldl mappingStep []

/-- One attempted match of the rewrite pattern `:["']?name["']?` at the
head of the input, with `name` a literal string (names come from
discovery, hence contain no regex metacharacters).  Returns the
unconsumed suffix.  The leading `['"]?` is greedy with backtracking: a
present quote is consumed if `name` follows it, otherwise the empty
alternative is tried. -/
def tryName (name : List Char) (cs : List Char) : Option (List Char) :=
  if startsWithList name cs then some (consumeQuote (cs.drop name.length)) else none

def matchPat (name : List Char) : List Char → Option (List Char)
  | [] => none
  | c :: rest =>
    if c = ':' then
      match rest with
      | [] => tryName name []
      | q :: rest2 =>
        if isQuote q then
          match tryName name rest2 with
          | some rem => some rem
          | none => tryName name rest
        else tryName name rest
    else none

/-- `r.ReplaceAllLiteralString(query, repl)` for the rewrite pattern:
replace every leftmost non-overlapping match, scanning left to right.
Every match starts with a colon and consumes at least one character, so
fuel `length + 1` never runs out. -/
def replaceAllAux (name repl : List Char) : Nat → List Char → List Char
  | 0, cs => cs
  | _ + 1, [] => []
  | fuel + 1, c :: cs =>
    match matchPat name (c :: cs) with
    | some rem => repl ++ replaceAllAux name repl fuel rem
    | none => c :: replaceAllAux name repl fuel cs

def replaceAll (name repl cs : List Char) : List Char :=
  replaceAllAux name repl (cs.length + 1) cs

/-- `fmt.Sprintf("$%d", ord)`. -/
def ordinalMarker (ord : Nat) : String := "$" ++ toString ord

/-- One iteration of the rewrite loop of `NewQuery`: compile
`:["']?name["']?` and replace all its matches by `$ord`. -/
def rewritePass (cs : List Char) (p : String × Nat) : List Char :=
  replaceAll p.1.data (ordinalMarker p.2).data cs

/-- The `Query` struct: raw text, ordinal-rewritten text, and the
name-to-ordinal mapping (a Go map, modelled by its entry list in
insertion order; Go map equality is equality of the entry set). -/
structure Query where
  Raw : String
  OrdinalQuery : String
  Mapping : List (String × Nat)
deriving DecidableEq, Repr

/-- `NewQuery` from queries.go, with the iteration order of the rewrite
loop (`for name, ord := range mapping`) made explicit: a real Go
execution corresponds to `order` being some permutation of the mapping's
entries. -/
def NewQueryWith (order : List (String × Nat)) (query : String) : Query :=
  { Raw := query
    OrdinalQuery := String.mk (order.foldl rewritePass query.data)
    Mapping := buildMapping (namesOf query) }

/-- The mapping `NewQuery` computes for `query` (independent of the
rewrite iteration order, which is fixed only afterwards). -/
def mappingOf (query : String) : List (String × Nat) :=
  buildMapping (namesOf query)

/-- `NewQuery` with the rewrite loop iterating in insertion order (one of
the possible Go map iteration orders). -/
def NewQuery (query : String) : Query := NewQueryWith (mappingOf query) query

/-- `Query.Prepare` from queries.go: collect the `(name, ordinal)` pairs
of `q.Mapping` (a Go map, so in an unspecified iteration order `params`),
sort them by ordinal, and look each name up in the caller's argument map.
`args` is the caller map viewed as a lookup function; a missing key gives
Go's zero value `nil`, modelled as `none`.  `sort.Slice` is modelled as a
sort by ordinal (for the distinct ordinals produced by `NewQuery`, every
correct sort yields the same list).  The `components` array has length
`len(q.Mapping) = params.length` and is fully overwritten by the loop. -/
def Prepare {V : Type} (params : List (String × Nat)) (args : String → Option V) :
    List (Option V) :=
  (List.insertionSort (fun p q => p.2 ≤ q.2) params).map (fun p => args p.1)

instance : IsTrans (String × Nat) (fun p q => p.2 ≤ q.2) :=
  ⟨fun _ _ _ h1 h2 => Nat.le_trans h1 h2⟩

instance : IsTotal (String × Nat) (fun p q => p.2 ≤ q.2) :=
  ⟨fun a b => Nat.le_total a.2 b.2⟩

instance : IsAntisymm (String × Nat) (fun p q => p.2 < q.2) :=
  ⟨fun _ _ h1 h2 => absurd h2 (Nat.lt_asymm h1)⟩

/-- `QueryStore.loadQueriesFromFile` from queries.go, after the scanner
has produced `entries` (a Go map from name to raw text, so `entries` is
its entry list in an unspecified iteration order).  The store
`s.queries` is a Go map, modelled by its entry list.  For each entry: if
the name is already present, return the duplicate-name error at once
(the store keeps everything inserted so far); otherwise insert
`resolve(text)` and continue.  The error is modelled as the offending
name (Go wraps it in the message `Query '<name>' already exists`). -/
def loadQueriesFromFile (resolve : String → Query) :
    List (String × String) → List (String × Query) → List (String × Query) × Option String
  | [], store => (store, none)
  | (name, text) :: rest, store =>
    if store.any (fun p => p.1 = name) then (store, some name)
    else loadQueriesFromFile resolve rest (store ++ [(name, resolve text)])

/-- Whitespace as trimmed by the scanner's header recognition. -/
def isWS (c : Char) : Bool := c = ' ' || c = '\t' || c = '\r' || c = '\n'

/-- Trim whitespace from both ends of a line. -/
def trimL (cs : List Char) : List Char :=
  ((cs.dropWhile isWS).reverse.dropWhile isWS).reverse

/-- Modelled from the spec: the `Scanner` type (scanBlocks / Scanner.Run)
is not among the repository's source files, only its callers are; §4.1
specifies header recognition.  A line is a block header iff, after
trimming, it is comment-marker `--`, then the literal token `name:`, then
a bare identifier: a maximal nonempty run of non-whitespace characters.
A malformed header (missing identifier) is an ordinary content line. -/
def headerNameL (line : List Char) : Option String :=
  match trimL line with
  | '-' :: '-' :: rest =>
    let r := rest.dropWhile isWS
    if startsWithList "name:".data r then
      let after := (r.drop 5).dropWhile isWS
      let ident := after.takeWhile (fun c => !isWS c)
      if ident.isEmpty then none else some (String.mk ident)
    else none
  | _ => none

/-- Join accumulated block lines with a newline character, no trailing
newline added. -/
def joinLines : List String → String
  | [] => ""
  | [l] => l
  | l :: ls => l ++ "\n" ++ joinLines ls

/-- Insert a finalized block into the result mapping; a duplicate name
within the same scan silently overwrites the earlier block's content. -/
def insertBlock (m : List (String × String)) (name text : String) :
    List (String × String) :=
  if m.any (fun p => p.1 = name) then
    m.map (fun p => if p.1 = name then (name, text) else p)
  else m ++ [(name, text)]

/-- Modelled from the spec: the scanner's single left-to-right pass
(§4.1).  State is the currently open block (name and reversed buffer of
accumulated lines); a header finalizes any open block and opens a new
one; content lines before the first header are discarded; end of input
finalizes any still-open block. -/
def scanBlocksAux :
    List (List Char) → Option (String × List String) → List (String × String) →
      List (String × String)
  | [], none, m => m
  | [], some (name, buf), m => insertBlock m name (joinLines buf.reverse)
  | line :: rest, blk, m =>
    match headerNameL line with
    | some n =>
      match blk with
      | some (name, buf) =>
        scanBlocksAux rest (some (n, [])) (insertBlock m name (joinLines buf.reverse))
      | none => scanBlocksAux rest (some (n, [])) m
    | none =>
      match blk with
      | some (name, buf) => scanBlocksAux rest (some (name, String.mk line :: buf)) m
      | none => scanBlocksAux rest none m

/-- Modelled from the spec: `scanBlocks` consumes the line sequence and
returns the name-to-raw-text mapping (always, never an error). -/
def scanBlocks (lines : List (List Char)) : List (String × String) :=
  scanBlocksAux lines none []

/-- Split text into lines the way `bufio.Scanner` with `ScanLines` feeds
them to the scanner: split on newline, no trailing empty token when the
text ends with a newline. -/
def splitLinesAux : List Char → List Char → List (List Char)
  | [], acc => [acc.reverse]
  | c :: rest, acc =>
    if c = '\n' then acc.reverse :: splitLinesAux rest []
    else splitLinesAux rest (c :: acc)

def splitLines (s : String) : List (List Char) :=
  match s.data with
  | [] => []
  | cs =>
    let ls := splitLinesAux cs []
    if ls.getLast? = some [] then ls.dropLast else ls

/-- The distinct non-reserved names of a list, kept in first-occurrence
left-to-right order: the key sequence the discovery loop inserts. -/
def firstOccur (names : List String) : List String :=
  names.foldl
    (fun acc n =>
      if isReservedName n then acc
      else if acc.any (fun m => m = n) then acc
      else acc ++ [n]) []

/-- A nonempty string of the identifier shape `[A-Za-z][A-Za-z0-9_]*`. -/
def identShaped (s : String) : Bool :=
  match s.data with
  | [] => false
  | c :: rest => isIdentStart c && rest.all isIdentChar

end Queries

section SanityChecks
open Queries

example : namesOf "SELECT * FROM users WHERE id = :id AND name = :name" = ["id", "name"] := by decide
example : mappingOf "SELECT * FROM users WHERE id = :id AND name = :name" = [("id", 1), ("name", 2)] := by decide
example : (NewQuery "SELECT * FROM users WHERE id = :id AND name = :name").OrdinalQuery
    = "SELECT * FROM users WHERE id = $1 AND name = $2" := by decide
example : mappingOf "x::integer" = [] := by decide
example : mappingOf "a = :id AND b = :ids" = [("id", 1), ("ids", 2)] := by decide
example : (NewQueryWith [("id", 1), ("ids", 2)] "a = :id AND b = :ids").OrdinalQuery
    = "a = $1 AND b = $1s" := by decide
example : (NewQueryWith [("ids", 2), ("id", 1)] "a = :id AND b = :ids").OrdinalQuery
    = "a = $1 AND b = $2" := by decide
example : mappingOf "SELECT :id, x::id" = [("id", 1)] := by decide
example : (NewQueryWith [("id", 1)] "SELECT :id, x::id").OrdinalQuery
    = "SELECT $1, x:$1" := by decide
example : mappingOf "WHERE :MI = 1" = [] := by decide
example : (NewQueryWith [] "WHERE :MI = 1").OrdinalQuery = "WHERE :MI = 1" := by decide
example : mappingOf ":id = 1" = [] := by decide
example : mappingOf "x = :b AND y = :a AND z = :b" = [("b", 1), ("a", 2)] := by decide
example : mappingOf "INSERT INTO users (full_name, age) VALUES (:full_name, :age)"
    = [("full_name", 1), ("age", 2)] := by decide
example : (NewQuery "INSERT INTO users (full_name, age) VALUES (:full_name, :age)").OrdinalQuery
    = "INSERT INTO users (full_name, age) VALUES ($1, $2)" := by decide
example : mappingOf "a:'id' = 1" = [("id", 1)] := by decide
example : (NewQuery "a:'id' = 1").OrdinalQuery = "a$1 = 1" := by decide
example : Prepare [("name", 2), ("id", 1)]
    (fun n => if n = "id" then some 5 else if n = "name" then some 7 else none)
    = [some 5, some 7] := by decide
example : Prepare [("name", 2), ("id", 1)]
    (fun n => if n = "id" then some 5 else (none : Option Nat))
    = [some 5, none] := by decide
example : scanBlocks (splitLines "-- name: q1\nSELECT 1\n-- name: q2\nSELECT 2\n")
    = [("q1", "SELECT 1"), ("q2", "SELECT 2")] := by decide
example : scanBlocks (splitLines "SELECT 1\nSELECT 2\n") = [] := by decide
example :
    (loadQueriesFromFile NewQuery [("a", "SELECT 1"), ("b", "SELECT 2")]
      [("b", NewQuery "SELECT 0")]).2 = some "b" := by decide

end SanityChecks

namespace Queries

lemma pairwiseLtRange : ∀ (n s : Nat), (List.range' s n).Pairwise (· < ·) := by
  intro n
  induction n with
  | zero => intro s; simp
  | succ k ih =>
    intro s
    rw [List.range'_succ]
    refine List.Pairwise.cons ?_ (ih (s + 1))
    intro m hm
    have := List.mem_range'_1.mp hm
    omega

lemma foldl_mappingStep_snd :
    ∀ (names : List String) (acc : List (String × Nat)),
      acc.map Prod.snd = List.range' 1 acc.length →
      (names.foldl mappingStep acc).map Prod.snd
        = List.range' 1 (names.foldl mappingStep acc).length := by
  intro names
  induction names with
  | nil => intro acc h; simpa using h
  | cons n rest ih =>
    intro acc h
    simp only [List.foldl_cons]
    apply ih
    unfold mappingStep
    split
    · exact h
    · split
      · exact h
      · rw [List.map_append, h]
        have hlen : (acc ++ [(n, acc.length + 1)]).length = acc.length + 1 := by simp
        rw [hlen, List.range'_concat]
        simp [Nat.add_comm]

lemma buildMapping_snd (names : List String) :
    (buildMapping names).map Prod.snd = List.range' 1 (buildMapping names).length :=
  foldl_mappingStep_snd names [] (by simp)

lemma mappingStep_fst (acc : List (String × Nat)) (n : String) :
    (mappingStep acc n).map Prod.fst
      = (if isReservedName n then acc.map Prod.fst
         else if (acc.map Prod.fst).any (fun m => m = n) then acc.map Prod.fst
         else acc.map Prod.fst ++ [n]) := by
  have hany : ∀ (l : List (String × Nat)),
      ((l.map Prod.fst).any (fun m => m = n)) = l.any (fun p => p.1 = n) := by
    intro l
    induction l with
    | nil => rfl
    | cons p rest ih => simp only [List.map_cons, List.any_cons, ih]
  rw [hany]
  unfold mappingStep
  split
  · rfl
  · split
    · rfl
    · simp

lemma buildMapping_fst (names : List String) :
    (buildMapping names).map Prod.fst = firstOccur names := by
  unfold buildMapping firstOccur
  suffices h : ∀ (ns : List String) (acc : List (String × Nat)),
      (ns.foldl mappingStep acc).map Prod.fst
        = ns.foldl
            (fun a m =>
              if isReservedName m then a
              else if a.any (fun x => x = m) then a
              else a ++ [m]) (acc.map Prod.fst) by
    simpa using h names []
  intro ns
  induction ns with
  | nil => intro acc; rfl
  | cons n rest ih =>
    intro acc
    simp only [List.foldl_cons]
    rw [ih, mappingStep_fst]

lemma mappingStep_mem (acc : List (String × Nat)) (m n : String) :
    (n ∈ (mappingStep acc m).map Prod.fst
      ↔ n ∈ acc.map Prod.fst ∨ (n = m ∧ isReservedName m = false)) := by
  unfold mappingStep
  split
  · rename_i hres
    simp [hres]
  · split
    · rename_i hres hany
      constructor
      · exact Or.inl
      · rintro (h | ⟨rfl, _⟩)
        · exact h
        · obtain ⟨p, hp, he⟩ := List.any_eq_true.mp hany
          exact List.mem_map.mpr ⟨p, hp, of_decide_eq_true he⟩
    · rename_i hres hany
      rw [List.map_append]
      simp only [List.mem_append, List.map_cons, List.map_nil, List.mem_singleton]
      constructor
      · rintro (h | rfl)
        · exact Or.inl h
        · exact Or.inr ⟨rfl, Bool.eq_false_iff.mpr hres⟩
      · rintro (h | ⟨rfl, _⟩)
        · exact Or.inl h
        · exact Or.inr rfl

lemma foldl_mappingStep_mem :
    ∀ (names : List String) (acc : List (String × Nat)) (n : String),
      (n ∈ (names.foldl mappingStep acc).map Prod.fst
        ↔ n ∈ acc.map Prod.fst ∨ (n ∈ names ∧ isReservedName n = false)) := by
  intro names
  induction names with
  | nil => intro acc n; simp
  | cons m rest ih =>
    intro acc n
    simp only [List.foldl_cons]
    rw [ih, mappingStep_mem]
    constructor
    · rintro ((h | ⟨rfl, hres⟩) | ⟨hm, hres⟩)
      · exact Or.inl h
      · exact Or.inr ⟨List.mem_cons_self _ _, hres⟩
      · exact Or.inr ⟨List.mem_cons_of_mem _ hm, hres⟩
    · rintro (h | ⟨hm, hres⟩)
      · exact Or.inl (Or.inl h)
      · rcases List.mem_cons.mp hm with rfl | hrest
        · exact Or.inl (Or.inr ⟨rfl, hres⟩)
        · exact Or.inr ⟨hrest, hres⟩

lemma buildMapping_mem (names : List String) (n : String) :
    n ∈ (buildMapping names).map Prod.fst
      ↔ n ∈ names ∧ isReservedName n = false := by
  unfold buildMapping
  rw [foldl_mappingStep_mem]
  simp

lemma foldl_mappingStep_nodup :
    ∀ (names : List String) (acc : List (String × Nat)),
      (acc.map Prod.fst).Nodup → ((names.foldl mappingStep acc).map Prod.fst).Nodup := by
  intro names
  induction names with
  | nil => intro acc h; exact h
  | cons n rest ih =>
    intro acc h
    simp only [List.foldl_cons]
    apply ih
    unfold mappingStep
    split
    · exact h
    · split
      · exact h
      · rename_i hres hany
        rw [List.map_append]
        have hn : n ∉ acc.map Prod.fst := by
          intro hmem
          obtain ⟨p, hp, he⟩ := List.mem_map.mp hmem
          exact hany (List.any_eq_true.mpr ⟨p, hp, decide_eq_true he⟩)
        simp [List.nodup_append, h, hn]

lemma buildMapping_nodup (names : List String) :
    ((buildMapping names).map Prod.fst).Nodup :=
  foldl_mappingStep_nodup names [] (by simp)

lemma matchBody_shape (cs : List Char) (n : String) (rem : List Char)
    (h : matchBody cs = some (n, rem)) : identShaped n = true := by
  cases cs with
  | nil => simp [matchBody] at h
  | cons q rest =>
    by_cases hq : isQuote q = true
    · cases rest with
      | nil => simp [matchBody, hq] at h
      | cons a rest2 =>
        by_cases ha : isIdentStart a = true
        · simp only [matchBody, hq, if_pos, ha, if_true, Option.some.injEq,
            Prod.mk.injEq] at h
          rw [← h.1]
          simp [identShaped, ha, List.all_takeWhile]
        · simp [matchBody, hq, ha] at h
    · by_cases hs : isIdentStart q = true
      · simp only [matchBody, hq, if_false, Bool.false_eq_true, if_neg, hs, if_true,
          Option.some.injEq, Prod.mk.injEq] at h
        rw [← h.1]
        simp [identShaped, hs, List.all_takeWhile]
      · simp [matchBody, hq, hs] at h

lemma matchVar_inv (cs : List Char) (x : String × List Char)
    (h : matchVar cs = some x) :
    ∃ c0 c1 rest, cs = c0 :: c1 :: rest ∧ matchBody rest = some x := by
  cases cs with
  | nil => simp [matchVar] at h
  | cons c0 t =>
    cases t with
    | nil => simp [matchVar] at h
    | cons c1 rest =>
      refine ⟨c0, c1, rest, rfl, ?_⟩
      by_cases h0 : c0 = ':'
      · simp [matchVar, h0] at h
      · by_cases h1 : c1 = ':'
        · simpa [matchVar, h0, h1] using h
        · simp [matchVar, h0, h1] at h

lemma findAllAux_shape :
    ∀ (fuel : Nat) (cs : List Char) (n : String),
      n ∈ findAllAux fuel cs → identShaped n = true := by
  intro fuel
  induction fuel with
  | zero => intro cs n h; simp [findAllAux] at h
  | succ k ih =>
    intro cs n h
    cases cs with
    | nil => simp [findAllAux] at h
    | cons c cs' =>
      rw [findAllAux] at h
      cases hm : matchVar (c :: cs') with
      | none =>
        rw [hm] at h
        exact ih cs' n h
      | some pr =>
        obtain ⟨name, rem⟩ := pr
        rw [hm] at h
        rcases List.mem_cons.mp h with rfl | htail
        · obtain ⟨c0, c1, rest, _, hb⟩ := matchVar_inv _ _ hm
          exact matchBody_shape rest n rem hb
        · exact ih rem n htail

lemma findAllAux_no_colon :
    ∀ (fuel : Nat) (c0 : Char) (cs : List Char),
      ':' ∉ cs → findAllAux fuel (c0 :: cs) = [] := by
  intro fuel
  induction fuel with
  | zero => intro c0 cs _; rfl
  | succ k ih =>
    intro c0 cs h
    cases cs with
    | nil =>
      rw [findAllAux]
      have hv : matchVar [c0] = none := rfl
      rw [hv]
      cases k <;> rfl
    | cons c1 rest =>
      have hc1 : c1 ≠ ':' := fun he => h (he ▸ List.mem_cons_self c1 rest)
      rw [findAllAux]
      have hv : matchVar (c0 :: c1 :: rest) = none := by
        by_cases h0 : c0 = ':'
        · simp [matchVar, h0]
        · simp [matchVar, h0, hc1]
      rw [hv]
      exact ih c1 rest (fun hm => h (List.mem_cons_of_mem _ hm))

lemma scanBlocksAux_no_header :
    ∀ (lines : List (List Char)) (m : List (String × String)),
      (∀ l ∈ lines, headerNameL l = none) → scanBlocksAux lines none m = m := by
  intro lines
  induction lines with
  | nil => intro m _; rfl
  | cons line rest ih =>
    intro m h
    have h0 : headerNameL line = none := h line (List.mem_cons_self _ _)
    rw [scanBlocksAux, h0]
    exact ih m (fun l hl => h l (List.mem_cons_of_mem _ hl))

lemma anyKey_eq {α : Type} (store : List (String × α)) (n : String) :
    store.any (fun p => p.1 = n) = true ↔ n ∈ store.map Prod.fst := by
  rw [List.any_eq_true]
  constructor
  · rintro ⟨p, hp, he⟩
    exact List.mem_map.mpr ⟨p, hp, of_decide_eq_true he⟩
  · intro hm
    obtain ⟨p, hp, he⟩ := List.mem_map.mp hm
    exact ⟨p, hp, decide_eq_true he⟩

lemma loadQueries_monotone :
    ∀ (resolve : String → Query) (entries : List (String × String))
      (store : List (String × Query)),
      ∃ added, (loadQueriesFromFile resolve entries store).1 = store ++ added := by
  intro resolve entries
  induction entries with
  | nil => intro store; exact ⟨[], by simp [loadQueriesFromFile]⟩
  | cons e rest ih =>
    intro store
    obtain ⟨name, text⟩ := e
    by_cases hdup : store.any (fun p => p.1 = name) = true
    · exact ⟨[], by simp [loadQueriesFromFile, hdup]⟩
    · obtain ⟨added, ha⟩ := ih (store ++ [(name, resolve text)])
      refine ⟨(name, resolve text) :: added, ?_⟩
      rw [loadQueriesFromFile]
      simp only [hdup, Bool.false_eq_true, if_false, ha, List.append_assoc,
        List.singleton_append]

lemma loadQueries_duplicate_error :
    ∀ (resolve : String → Query) (entries : List (String × String))
      (store : List (String × Query)),
      (entries.map Prod.fst).Nodup →
      (∃ n, n ∈ entries.map Prod.fst ∧ n ∈ store.map Prod.fst) →
      ((loadQueriesFromFile resolve entries store).2).isSome = true := by
  intro resolve entries
  induction entries with
  | nil =>
    intro store _ hex
    obtain ⟨n, hn, _⟩ := hex
    simp at hn
  | cons e rest ih =>
    intro store hnodup hex
    obtain ⟨name, text⟩ := e
    by_cases hdup : store.any (fun p => p.1 = name) = true
    · rw [loadQueriesFromFile]
      simp [hdup]
    · rw [loadQueriesFromFile]
      simp only [hdup, Bool.false_eq_true, if_false]
      apply ih
      · exact (List.nodup_cons.mp (by simpa only [List.map_cons] using hnodup)).2
      · obtain ⟨n, hn, hs⟩ := hex
        have hne : n ≠ name := by
          rintro rfl
          exact hdup ((anyKey_eq store n).mpr hs)
        have hn' : n ∈ name :: rest.map Prod.fst := by
          simpa only [List.map_cons] using hn
        refine ⟨n, ?_, ?_⟩
        · rcases List.mem_cons.mp hn' with he | ht
          · exact absurd he hne
          · exact ht
        · rw [List.map_append]
          exact List.mem_append_left _ hs

lemma sorted_le_nodup_lt {l : List (String × Nat)}
    (hs : l.Pairwise (fun p q => p.2 ≤ q.2))
    (hn : (l.map Prod.snd).Nodup) :
    l.Pairwise (fun p q => p.2 < q.2) := by
  have hn' : (l.map Prod.snd).Pairwise (fun a b => a ≠ b) := hn
  have hne : l.Pairwise (fun p q => p.2 ≠ q.2) := List.pairwise_map.mp hn'
  exact (hs.and hne).imp (fun h => Nat.lt_of_le_of_ne h.1 h.2)

lemma mapping_pairwise_lt (raw : String) :
    (mappingOf raw).Pairwise (fun p q => p.2 < q.2) := by
  have hsnd : (mappingOf raw).map Prod.snd = List.range' 1 (mappingOf raw).length :=
    buildMapping_snd (namesOf raw)
  have hp : ((mappingOf raw).map Prod.snd).Pairwise (· < ·) := by
    rw [hsnd]; exact pairwiseLtRange _ _
  exact List.pairwise_map.mp hp

lemma mapping_snd_nodup (raw : String) : ((mappingOf raw).map Prod.snd).Nodup :=
  (mapping_pairwise_lt raw).imp (fun h => Nat.ne_of_lt h) |> List.pairwise_map.mpr

lemma insertionSort_eq_of_perm_mapping (raw : String) (it : List (String × Nat))
    (h : it.Perm (mappingOf raw)) :
    List.insertionSort (fun p q => p.2 ≤ q.2) it = mappingOf raw := by
  have hperm : (List.insertionSort (fun p q => p.2 ≤ q.2) it).Perm (mappingOf raw) :=
    (List.perm_insertionSort _ it).trans h
  have hsort_nodup : ((List.insertionSort (fun p q => p.2 ≤ q.2) it).map Prod.snd).Nodup :=
    (hperm.map Prod.snd).symm.nodup (mapping_snd_nodup raw)
  have hs1 : (List.insertionSort (fun p q => p.2 ≤ q.2) it).Pairwise
      (fun p q => p.2 < q.2) :=
    sorted_le_nodup_lt (List.sorted_insertionSort _ it) hsort_nodup
  exact List.eq_of_perm_of_sorted hperm hs1 (mapping_pairwise_lt raw)

/-- C1: the claim fails on the code.  For raw text
`a = :id AND b = :ids` the mapping is `{id ↦ 1, ids ↦ 2}`; when the
rewrite loop's map iteration happens to process `id` before `ids`, the
pattern `:["']?id["']?` matches inside `:ids` (the rewrite pattern has no
identifier-boundary check), so the longer name is partially replaced,
yielding `a = $1 AND b = $1s`.  Likewise the rewrite pattern has no
`[^:]` guard, so the double-colon cast in `SELECT :id, x::id` is
rewritten to `x:$1`.  Both iteration orders used below are the code's own
mapping for the respective raw text. -/
theorem newQuery_rewrite_partial_replacement_bug :
    mappingOf "a = :id AND b = :ids" = [("id", 1), ("ids", 2)] ∧
    (NewQueryWith [("id", 1), ("ids", 2)] "a = :id AND b = :ids").OrdinalQuery
      = "a = $1 AND b = $1s" ∧
    mappingOf "SELECT :id, x::id" = [("id", 1)] ∧
    (NewQueryWith [("id", 1)] "SELECT :id, x::id").OrdinalQuery
      = "SELECT $1, x:$1" :=
  ⟨by decide, by decide, by decide, by decide⟩

/-- C2 counterexample: loading entries `[a, b]` (one possible iteration
order of the scanned Go map) into a store that already holds `b` returns
the duplicate-name error for `b`, yet the store has been changed: `a` was
committed before the duplicate was hit.  This refutes the claim that the
store's query mapping is unchanged when the error is returned. -/
theorem loadQueries_partial_commit_counterexample :
    (loadQueriesFromFile NewQuery [("a", "SELECT 1"), ("b", "SELECT 2")]
        [("b", NewQuery "SELECT 0")]).2 = some "b" ∧
    (loadQueriesFromFile NewQuery [("a", "SELECT 1"), ("b", "SELECT 2")]
        [("b", NewQuery "SELECT 0")]).1 ≠ [("b", NewQuery "SELECT 0")] :=
  ⟨by decide, by decide⟩

/-- C2 amended: when some scanned block name is already present in the
store, the load returns a duplicate-name error (for every iteration
order of the scanned entries, whose names are distinct since they are Go
map keys), and the store only ever grows by appending new entries; but
entries processed before the duplicate remain committed, so the store is
not necessarily unchanged. -/
theorem loadQueries_duplicate_error_monotone
    (resolve : String → Query) (entries : List (String × String))
    (store : List (String × Query))
    (hnodup : (entries.map Prod.fst).Nodup)
    (hdup : ∃ n, n ∈ entries.map Prod.fst ∧ n ∈ store.map Prod.fst) :
    ((loadQueriesFromFile resolve entries store).2).isSome = true ∧
    ∃ added, (loadQueriesFromFile resolve entries store).1 = store ++ added :=
  ⟨loadQueries_duplicate_error resolve entries store hnodup hdup,
   loadQueries_monotone resolve entries store⟩

theorem loadQueries_duplicate_error_monotone_witness :
    ([("a", "SELECT 1"), ("b", "SELECT 2")].map
        (Prod.fst (α := String) (β := String))).Nodup ∧
    ((loadQueriesFromFile NewQuery [("a", "SELECT 1"), ("b", "SELECT 2")]
        [("b", NewQuery "SELECT 0")]).2).isSome = true :=
  ⟨by decide,
   (loadQueries_duplicate_error_monotone NewQuery
      [("a", "SELECT 1"), ("b", "SELECT 2")] [("b", NewQuery "SELECT 0")]
      (by decide) ⟨"b", by decide, by decide⟩).1⟩

/-- C3: for every raw text the discovery loop's mapping has ordinals
exactly `1..k` in entry order (dense, no duplicates, no gaps), its keys
are exactly the distinct eligible (non-reserved) discovered names in
first-occurrence left-to-right order, the keys are distinct, and the
mapping stored in the resolver's output is this mapping for every rewrite
iteration order; on `x = :b AND y = :a AND z = :b` the mapping is
`{b ↦ 1, a ↦ 2}`. -/
theorem mapping_dense_first_occurrence :
    (∀ raw : String,
      (mappingOf raw).map Prod.snd = List.range' 1 (mappingOf raw).length ∧
      (mappingOf raw).map Prod.fst = firstOccur (namesOf raw) ∧
      ((mappingOf raw).map Prod.fst).Nodup ∧
      (∀ n : String,
        n ∈ (mappingOf raw).map Prod.fst
          ↔ n ∈ namesOf raw ∧ isReservedName n = false) ∧
      (∀ order : List (String × Nat), (NewQueryWith order raw).Mapping = mappingOf raw)) ∧
    mappingOf "x = :b AND y = :a AND z = :b" = [("b", 1), ("a", 2)] := by
  refine ⟨?_, by decide⟩
  intro raw
  exact ⟨buildMapping_snd _, buildMapping_fst _, buildMapping_nodup _,
    fun n => buildMapping_mem _ n, fun _ => rfl⟩

/-- C4: for every parsed query and every iteration order `it` of its
mapping (any permutation of the mapping's entries), `Prepare` returns
exactly the mapping's names looked up in the caller's argument map, in
mapping order — whose ordinals are `1..N` in order — hence a list of
length `N` whose slot `i` (1-based) holds the caller's value for the name
of ordinal `i`, or `none` (Go `nil`) when the caller omitted that name.
The result does not depend on `it`, and the caller's map is only looked
up, never iterated. -/
theorem prepare_ordinal_order {V : Type} (raw : String)
    (it : List (String × Nat)) (args : String → Option V)
    (h : it.Perm (mappingOf raw)) :
    Prepare it args = (mappingOf raw).map (fun p => args p.1) ∧
    (Prepare it args).length = (mappingOf raw).length ∧
    (mappingOf raw).map Prod.snd = List.range' 1 (mappingOf raw).length := by
  have he : Prepare it args = (mappingOf raw).map (fun p => args p.1) := by
    unfold Prepare
    rw [insertionSort_eq_of_perm_mapping raw it h]
  exact ⟨he, by rw [he]; simp, buildMapping_snd _⟩

theorem prepare_ordinal_order_witness :
    List.Perm [("name", 2), ("id", 1)]
      (mappingOf "SELECT * FROM users WHERE id = :id AND name = :name") ∧
    Prepare [("name", 2), ("id", 1)]
      (fun n => if n = "id" then some (5 : Nat) else none) = [some 5, none] := by
  refine ⟨by decide, ?_⟩
  have h := (prepare_ordinal_order "SELECT * FROM users WHERE id = :id AND name = :name"
    [("name", 2), ("id", 1)] (fun n => if n = "id" then some (5 : Nat) else none)
    (by decide)).1
  rw [h]
  decide

/-- C5: a colon whose preceding character is another colon never starts a
discovery match (the `[^:]` in `psqlVarRE`), and on `x::integer` the
resolver returns an empty mapping and leaves the text unchanged (the
empty mapping makes the rewrite loop a no-op, so the empty iteration
order is the only possible one). -/
theorem double_colon_no_param :
    (∀ cs : List Char, matchVar (':' :: cs) = none) ∧
    mappingOf "x::integer" = [] ∧
    NewQueryWith [] "x::integer"
      = { Raw := "x::integer", OrdinalQuery := "x::integer", Mapping := [] } := by
  refine ⟨?_, by decide, by decide⟩
  intro cs
  cases cs with
  | nil => rfl
  | cons c1 rest => simp [matchVar]

/-- C6: in the variant with `isReservedName`, a reserved name (`MI` or
`SS`, case-sensitive) never enters the mapping of any resolved query (for
every rewrite iteration order), so it receives no ordinal; and on
`WHERE :MI = 1` the mapping is empty and the text is untouched (the empty
mapping makes the rewrite loop a no-op, so no rewrite pass exists for the
discarded candidate). -/
theorem reserved_names_excluded :
    (∀ (raw : String) (order : List (String × Nat)) (n : String),
      isReservedName n = true → n ∉ (NewQueryWith order raw).Mapping.map Prod.fst) ∧
    mappingOf "WHERE :MI = 1" = [] ∧
    NewQueryWith [] "WHERE :MI = 1"
      = { Raw := "WHERE :MI = 1", OrdinalQuery := "WHERE :MI = 1", Mapping := [] } := by
  refine ⟨?_, by decide, by decide⟩
  intro raw order n hres hmem
  have h := (buildMapping_mem (namesOf raw) n).mp hmem
  rw [hres] at h
  exact absurd h.2 (by simp)

theorem reserved_names_excluded_witness :
    isReservedName "MI" = true ∧
    "MI" ∉ (NewQueryWith [] "WHERE :MI = 1").Mapping.map Prod.fst :=
  ⟨by decide, reserved_names_excluded.1 "WHERE :MI = 1" [] "MI" (by decide)⟩

/-- C7: the claim fails on the code.  Both lists below are iteration
orders (permutations) of the mapping the code computes for
`a = :id AND b = :ids`, yet the two resulting parsed queries differ
(`a = $1 AND b = $1s` versus `a = $1 AND b = $2`), so the resolver's
output depends on the internal map iteration order of the rewrite pass
and is not deterministic. -/
theorem newQuery_nondeterministic_across_map_orders :
    List.Perm [("id", 1), ("ids", 2)] (mappingOf "a = :id AND b = :ids") ∧
    List.Perm [("ids", 2), ("id", 1)] (mappingOf "a = :id AND b = :ids") ∧
    NewQueryWith [("id", 1), ("ids", 2)] "a = :id AND b = :ids"
      ≠ NewQueryWith [("ids", 2), ("id", 1)] "a = :id AND b = :ids" :=
  ⟨by decide, by decide, by decide⟩

/-- C8: on the round-trip input the scanner returns exactly the two named
blocks, and an input whose lines contain no header yields the empty
mapping (never an error).  The scanner itself is modelled from the spec
(§4.1), since its source file is not part of the repository snapshot. -/
theorem scanBlocks_round_trip :
    scanBlocks (splitLines "-- name: q1\nSELECT 1\n-- name: q2\nSELECT 2\n")
      = [("q1", "SELECT 1"), ("q2", "SELECT 2")] ∧
    (∀ lines : List (List Char),
      (∀ l ∈ lines, headerNameL l = none) → scanBlocks lines = []) := by
  refine ⟨by decide, ?_⟩
  intro lines h
  exact scanBlocksAux_no_header lines [] h

theorem scanBlocks_round_trip_witness :
    scanBlocks ["SELECT 1".data, "SELECT 2".data] = [] :=
  scanBlocks_round_trip.2 _ (by decide)

/-- C9: the resolver is a total function of the raw text: for every input
string and every rewrite iteration order it yields a parsed query whose
`Raw` is the input, and every discovered name is identifier-shaped
(`[A-Za-z][A-Za-z0-9_]*`), which is why the per-name rewrite patterns the
code compiles from them are well-formed. -/
theorem newQuery_total :
    ∀ (raw : String) (order : List (String × Nat)),
      (NewQueryWith order raw).Raw = raw ∧
      (∀ n, n ∈ namesOf raw → identShaped n = true) := by
  intro raw order
  exact ⟨rfl, fun n hn => findAllAux_shape _ _ n hn⟩

theorem newQuery_total_witness :
    (NewQueryWith [] "a = :x").Raw = "a = :x" ∧ identShaped "x" = true :=
  ⟨(newQuery_total "a = :x" []).1, (newQuery_total "a = :x" []).2 "x" (by decide)⟩

/-- C10 counterexample: the claim's conclusion "the placeholder is left
unrewritten" fails on the code.  In `:ids AND x = :id` the leading
placeholder `:ids` starts at the very first character and its name `ids`
occurs nowhere else, so discovery never finds it and it gets no ordinal —
yet the rewrite pass of the discovered name `id` (here under the only
possible iteration order of the singleton mapping) matches inside `:ids`
and clips it, producing `$1s AND x = $1` instead of leaving it intact. -/
theorem leading_placeholder_rewritten_counterexample :
    mappingOf ":ids AND x = :id" = [("id", 1)] ∧
    "ids" ∉ (mappingOf ":ids AND x = :id").map Prod.fst ∧
    (NewQueryWith [("id", 1)] ":ids AND x = :id").OrdinalQuery
      = "$1s AND x = $1" ∧
    (NewQueryWith [("id", 1)] ":ids AND x = :id").OrdinalQuery
      ≠ ":ids AND x = :id" :=
  ⟨by decide, by decide, by decide, by decide⟩

/-- C10 amended: a discovery match needs a (non-colon) character before
the colon, so a placeholder at the very first character of the text is
never discovered and its name gets no ordinal and is absent from the
mapping.  Its text is guaranteed untouched only when no other discovered
name's rewrite pass can reach it: a text starting with a colon and
containing no further colon yields no names at all, and on `:id = 1` the
mapping is empty and the placeholder is left unrewritten (otherwise
another mapped name's pass may clip it, as the counterexample shows). -/
theorem leading_placeholder_not_discovered :
    (∀ (fuel : Nat) (rest : List Char),
      ':' ∉ rest → findAllAux fuel (':' :: rest) = []) ∧
    mappingOf ":id = 1" = [] ∧
    NewQueryWith [] ":id = 1"
      = { Raw := ":id = 1", OrdinalQuery := ":id = 1", Mapping := [] } := by
  refine ⟨?_, by decide, by decide⟩
  intro fuel rest h
  exact findAllAux_no_colon fuel ':' rest h

theorem leading_placeholder_not_discovered_witness :
    (':' ∉ "id = 1".data) ∧ findAllAux 8 (':' :: "id = 1".data) = [] :=
  ⟨by decide, leading_placeholder_not_discovered.1 8 "id = 1".data (by decide)⟩

end Queries
